import Mathlib

/-!
Verification development for the cowork-z sidecar task-orchestration core.

The embedding below follows the TypeScript sources:
* `OpenCodeAdapter` (task session state machine: `handleMessage`,
  `handleProcessExit`, `interruptTask`, `cancelTask`, `dispose`,
  `cleanPtyOutput`),
* `TaskManager` (registry, `startTask`, `cancelTask`, `cleanupTask`),
* the sidecar message routing (adapter events to outbound messages),
* the message record model from `types.ts`.

The `StreamParser` implementation file is not part of the sources, only its
callers and the design document are; the parser is therefore modelled from the
spec (each such definition is marked `Modelled from the spec:`).
All strings are modelled as `List Char` at the parser level and `String` at
the session level; JavaScript string truthiness (empty string is falsy) is
modelled explicitly where the source relies on it.
-/

namespace CoworkZ

/-- The terminal escape character 0x1B. -/
def escChar : Char := '\x1B'

/-! ## JSON values (record payloads)

Modelled from the spec: the subprocess "is expected to emit one
newline-delimited structured record per logical event"; records are JSON
objects.  Numbers are kept as raw character runs (their numeric value is
never consumed by the core). -/

/-- Modelled from the spec: a structured-record (JSON) value. -/
inductive Json where
  | null : Json
  | bool (b : Bool) : Json
  | num (raw : List Char) : Json
  | str (s : List Char) : Json
  | arr (elems : List Json) : Json
  | obj (fields : List (List Char × Json)) : Json

/-- JSON insignificant whitespace. -/
def isJsonWs (c : Char) : Bool :=
  c = ' ' || c = '\t' || c = '\n' || c = '\r'

/-- Skip leading JSON whitespace. -/
def skipWs : List Char → List Char
  | [] => []
  | c :: cs => if isJsonWs c then skipWs cs else c :: cs

/-- Decode a single-character escape after a backslash
(unicode escapes are not modelled; the spec does not use them). -/
def decodeEsc (e : Char) : Option Char :=
  if e = '"' then some '"'
  else if e = '\\' then some '\\'
  else if e = '/' then some '/'
  else if e = 'n' then some '\n'
  else if e = 't' then some '\t'
  else if e = 'r' then some '\r'
  else if e = 'b' then some (Char.ofNat 8)
  else if e = 'f' then some (Char.ofNat 12)
  else none

/-- Modelled from the spec: body of a JSON string literal (after the opening
quote).  Raw control characters (code points below 32) are rejected, as in
JSON's string grammar.  Returns the decoded characters and the input after
the closing quote. -/
def strBody : List Char → Option (List Char × List Char)
  | [] => none
  | c :: cs =>
    if c = '"' then some ([], cs)
    else if c = '\\' then
      match cs with
      | [] => none
      | e :: cs' =>
        match decodeEsc e with
        | none => none
        | some d =>
          match strBody cs' with
          | some (s, rest) => some (d :: s, rest)
          | none => none
    else if c.toNat < 32 then none
    else
      match strBody cs with
      | some (s, rest) => some (c :: s, rest)
      | none => none

/-- Characters that may occur in a JSON number token. -/
def isNumChar (c : Char) : Bool :=
  c.isDigit || c = '-' || c = '+' || c = '.' || c = 'e' || c = 'E'

/-- Take the longest run of number characters. -/
def takeNum : List Char → List Char × List Char
  | [] => ([], [])
  | c :: cs =>
    if isNumChar c then
      let (a, b) := takeNum cs
      (c :: a, b)
    else ([], c :: cs)

mutual

/-- Modelled from the spec: parse one JSON value.  The fuel argument only
serves termination; it is instantiated with the line length. -/
def parseVal : Nat → List Char → Option (Json × List Char)
  | 0, _ => none
  | fuel + 1, l =>
    match skipWs l with
    | [] => none
    | c :: cs =>
      if c = '"' then
        match strBody cs with
        | some (s, rest) => some (.str s, rest)
        | none => none
      else if c = '\x7b' then parseFields fuel cs
      else if c = '[' then parseElems fuel cs
      else if c = 't' then
        match cs with
        | 'r' :: 'u' :: 'e' :: rest => some (.bool true, rest)
        | _ => none
      else if c = 'f' then
        match cs with
        | 'a' :: 'l' :: 's' :: 'e' :: rest => some (.bool false, rest)
        | _ => none
      else if c = 'n' then
        match cs with
        | 'u' :: 'l' :: 'l' :: rest => some (.null, rest)
        | _ => none
      else if isNumChar c then
        let (a, b) := takeNum cs
        some (.num (c :: a), b)
      else none

/-- Parse the fields of an object, positioned right after `{` or `,`. -/
def parseFields : Nat → List Char → Option (Json × List Char)
  | 0, _ => none
  | fuel + 1, l =>
    match skipWs l with
    | '\x7d' :: rest => some (.obj [], rest)
    | '"' :: cs =>
      match strBody cs with
      | none => none
      | some (key, r1) =>
        match skipWs r1 with
        | ':' :: r2 =>
          match parseVal fuel r2 with
          | none => none
          | some (v, r3) =>
            match skipWs r3 with
            | '\x7d' :: r4 => some (.obj [(key, v)], r4)
            | ',' :: r4 =>
              match parseFields fuel r4 with
              | some (.obj fs, rest) => some (.obj ((key, v) :: fs), rest)
              | _ => none
            | _ => none
        | _ => none
    | _ => none

/-- Parse the elements of an array, positioned right after `[` or `,`. -/
def parseElems : Nat → List Char → Option (Json × List Char)
  | 0, _ => none
  | fuel + 1, l =>
    match skipWs l with
    | ']' :: rest => some (.arr [], rest)
    | l' =>
      match parseVal fuel l' with
      | none => none
      | some (v, r1) =>
        match skipWs r1 with
        | ']' :: r2 => some (.arr [v], r2)
        | ',' :: r2 =>
          match parseElems fuel r2 with
          | some (.arr vs, rest) => some (.arr (v :: vs), rest)
          | _ => none
        | _ => none

end

/-- Modelled from the spec: parse one complete line as a JSON value,
requiring the whole line to be consumed. -/
def parseJsonLine (l : List Char) : Option Json :=
  match parseVal (l.length + 1) l with
  | some (j, rest) => if skipWs rest = [] then some j else none
  | none => none

/-- First field of an object with the given key. -/
def jsonLookup (fields : List (List Char × Json)) (key : List Char) : Option Json :=
  match fields with
  | [] => none
  | (k, v) :: kvs => if k = key then some v else jsonLookup kvs key

/-- Extract a string field. -/
def jsonStr? (j : Json) : Option String :=
  match j with
  | .str s => some (String.mk s)
  | _ => none

/-! ## OpenCode message records (`types.ts`) -/

/-- `step_finish` reasons (`OpenCodeStepFinishMessage.part.reason`). -/
inductive FinishReason where
  | stop
  | end_turn
  | tool_use
  | error
deriving DecidableEq

/-- Tool execution states (`OpenCodeToolUseMessage.part.state.status`). -/
inductive ToolStatus where
  | pending
  | running
  | completed
  | error
deriving DecidableEq

/-- The parsed OpenCode record types (`OpenCodeMessage` in `types.ts`),
restricted to the fields the adapter reads. -/
inductive OCMessage where
  | step_start (sessionID : String)
  | text (sessionID : Option String) (content : String)
  | tool_call (tool : Option String) (input : Option Json)
  | tool_use (tool : Option String) (status : Option ToolStatus)
      (input : Option Json) (output : Option String)
  | tool_result (output : Option String)
  | step_finish (reason : FinishReason)
  | error (message : String)

/-- A string field of an object, if present with a string value. -/
def optStrField (fields : List (List Char × Json)) (key : List Char) : Option String :=
  match jsonLookup fields key with
  | some (.str s) => some (String.mk s)
  | _ => none

/-- The `part` object of a record. -/
def partFields (fields : List (List Char × Json)) : Option (List (List Char × Json)) :=
  match jsonLookup fields (String.toList "part") with
  | some (.obj p) => some p
  | _ => none

/-- Decode a `step_finish` reason string. -/
def decodeReason (s : List Char) : Option FinishReason :=
  if s = String.toList "stop" then some .stop
  else if s = String.toList "end_turn" then some .end_turn
  else if s = String.toList "tool_use" then some .tool_use
  else if s = String.toList "error" then some .error
  else none

/-- Decode a tool `state.status` string. -/
def decodeStatus (s : List Char) : Option ToolStatus :=
  if s = String.toList "pending" then some .pending
  else if s = String.toList "running" then some .running
  else if s = String.toList "completed" then some .completed
  else if s = String.toList "error" then some .error
  else none

/-- Build a `step_start` record from its `part` object. -/
def recStepStart (fields : List (List Char × Json)) : Option OCMessage :=
  match partFields fields with
  | some p =>
    match jsonLookup p (String.toList "sessionID") with
    | some (.str s) => some (.step_start (String.mk s))
    | _ => none
  | none => none

/-- Build a `text` record from its `part` object. -/
def recText (fields : List (List Char × Json)) : Option OCMessage :=
  match partFields fields with
  | some p =>
    match jsonLookup p (String.toList "text") with
    | some (.str s) =>
      some (.text (optStrField p (String.toList "sessionID")) (String.mk s))
    | _ => none
  | none => none

/-- Build a `tool_call` record from its `part` object. -/
def recToolCall (fields : List (List Char × Json)) : Option OCMessage :=
  match partFields fields with
  | some p =>
    some (.tool_call (optStrField p (String.toList "tool"))
      (jsonLookup p (String.toList "input")))
  | none => none

/-- Build a `tool_use` record from its `part` object (the `state` object
and its members are optional). -/
def recToolUse (fields : List (List Char × Json)) : Option OCMessage :=
  match partFields fields with
  | some p =>
    match jsonLookup p (String.toList "state") with
    | some (.obj st) =>
      some (.tool_use (optStrField p (String.toList "tool"))
        (match jsonLookup st (String.toList "status") with
         | some (.str s) => decodeStatus s
         | _ => none)
        (jsonLookup st (String.toList "input"))
        (optStrField st (String.toList "output")))
    | _ =>
      some (.tool_use (optStrField p (String.toList "tool")) none none none)
  | none => none

/-- Build a `tool_result` record from its `part` object. -/
def recToolResult (fields : List (List Char × Json)) : Option OCMessage :=
  match partFields fields with
  | some p => some (.tool_result (optStrField p (String.toList "output")))
  | none => none

/-- Build a `step_finish` record from its `part` object. -/
def recStepFinish (fields : List (List Char × Json)) : Option OCMessage :=
  match partFields fields with
  | some p =>
    match jsonLookup p (String.toList "reason") with
    | some (.str r) =>
      match decodeReason r with
      | some reason => some (.step_finish reason)
      | none => none
    | _ => none
  | none => none

/-- Build an `error` record from its top-level `error` field. -/
def recError (fields : List (List Char × Json)) : Option OCMessage :=
  match jsonLookup fields (String.toList "error") with
  | some (.str e) => some (.error (String.mk e))
  | _ => none

/-- Modelled from the spec: interpret one complete line as a structured
record of one of the shapes of `types.ts` (`step_start`, `text`,
`tool_call`, `tool_use`, `tool_result`, `step_finish`, `error`); any other
line is terminal noise and yields `none`. -/
def parseRecordLine (l : List Char) : Option OCMessage :=
  match parseJsonLine l with
  | some (.obj fields) =>
    match jsonLookup fields (String.toList "type") with
    | some (.str t) =>
      if t = String.toList "step_start" then recStepStart fields
      else if t = String.toList "text" then recText fields
      else if t = String.toList "tool_call" then recToolCall fields
      else if t = String.toList "tool_use" then recToolUse fields
      else if t = String.toList "tool_result" then recToolResult fields
      else if t = String.toList "step_finish" then recStepFinish fields
      else if t = String.toList "error" then recError fields
      else none
    | _ => none
  | _ => none

/-! ## Stream Parser

Modelled from the spec: "The parser appends incoming text to its buffer,
splits on newline boundaries, attempts to parse each complete line as one
structured record, and re-buffers the remainder (the as-yet-incomplete
final line) for the next `feed` call. [...] If accumulated unflushed bytes
exceed `maxBytes` without a newline [...], the buffer is discarded and a
recoverable error is raised."  (`stream-parser.ts` itself is not among the
sources; only its callers are.) -/

/-- All complete lines of the input (in order, without their newlines) and
the unterminated remainder. -/
def splitLines : List Char → List (List Char) × List Char
  | [] => ([], [])
  | c :: cs =>
    let p := splitLines cs
    if c = '\n' then ([] :: p.1, p.2)
    else
      match p.1 with
      | l :: ls => ((c :: l) :: ls, p.2)
      | [] => ([], c :: p.2)

/-- Parser state: the re-buffered partial line and the hard buffer ceiling. -/
structure StreamParser where
  buffer : List Char
  maxBytes : Nat

/-- The reference implementation's buffer ceiling: 10 MiB. -/
def defaultMaxBytes : Nat := 10485760

/-- A fresh parser with the given ceiling. -/
def mkStreamParser (maxB : Nat) : StreamParser :=
  { buffer := [], maxBytes := maxB }

/-- Parser-level notifications: a parsed record, a dropped noise line
(non-fatal parse-error notification), or the buffer-overflow error. -/
inductive ParserEvent where
  | message (m : OCMessage)
  | parseFail (line : List Char)
  | overflow

/-- The notification produced for one complete line. -/
def lineEvent (l : List Char) : ParserEvent :=
  match parseRecordLine l with
  | some m => .message m
  | none => .parseFail l

/-- Modelled from the spec: `feed` appends the chunk to the buffer, emits
one notification per complete line, re-buffers the remainder, and if the
unterminated remainder exceeds `maxBytes` discards it and raises one
recoverable error. -/
def StreamParser.feed (p : StreamParser) (chunk : List Char) :
    StreamParser × List ParserEvent :=
  let sp := splitLines (p.buffer ++ chunk)
  let evs := sp.1.map lineEvent
  if sp.2.length > p.maxBytes then
    ({ p with buffer := [] }, evs ++ [.overflow])
  else
    ({ p with buffer := sp.2 }, evs)

/-- Modelled from the spec: `reset` clears all buffered state. -/
def StreamParser.reset (p : StreamParser) : StreamParser :=
  { p with buffer := [] }

/-- Feed a list of chunks in order, concatenating the notifications. -/
def feedAll (p : StreamParser) : List (List Char) → StreamParser × List ParserEvent
  | [] => (p, [])
  | c :: cs =>
    let r1 := p.feed c
    let r2 := feedAll r1.1 cs
    (r2.1, r1.2 ++ r2.2)

/-- The record carried by a notification, if any. -/
def eventMessage : ParserEvent → Option OCMessage
  | .message m => some m
  | _ => none

/-- The parsed records among a list of parser notifications. -/
def messagesOf (evs : List ParserEvent) : List OCMessage :=
  evs.filterMap eventMessage

/-! ## Terminal decoration stripping (`OpenCodeAdapter.cleanPtyOutput`)

The adapter removes, per chunk and in this order, CSI sequences
(`\x1B\[[0-9;?]*[a-zA-Z]`), OSC sequences terminated by BEL
(`\x1B\][^\x07]*\x07`), and OSC sequences terminated by ST
(`\x1B\][^\x1B]*\x1B\\`), each as a global regex replace. -/

/-- Consume the parameter bytes and final letter of a CSI sequence. -/
def csiBody : List Char → Option (List Char)
  | [] => none
  | c :: cs =>
    if c.isAlpha then some cs
    else if c.isDigit || c = ';' || c = '?' then csiBody cs
    else none

/-- Consume an OSC body up to and including its BEL terminator. -/
def oscBelBody : List Char → Option (List Char)
  | [] => none
  | c :: cs => if c = '\x07' then some cs else oscBelBody cs

/-- Consume an OSC body up to and including its `ESC \` terminator; the
body itself may not contain `ESC`. -/
def oscStBody : List Char → Option (List Char)
  | [] => none
  | c :: cs =>
    if c = escChar then
      match cs with
      | [] => none
      | d :: cs' => if d = '\\' then some cs' else none
    else oscStBody cs

/-- Global replace of CSI sequences by the empty string.  The fuel is
instantiated with the input length, which bounds the recursion depth
(every recursive call consumes at least one character); the fuel-exhausted
case is unreachable. -/
def stripCSIGo : Nat → List Char → List Char
  | 0, l => l
  | _ + 1, [] => []
  | f + 1, c :: cs =>
    if c = escChar then
      match cs with
      | '[' :: rest =>
        match csiBody rest with
        | some rest' => stripCSIGo f rest'
        | none => c :: stripCSIGo f cs
      | _ => c :: stripCSIGo f cs
    else c :: stripCSIGo f cs

/-- Global replace of CSI sequences by the empty string. -/
def stripCSI (l : List Char) : List Char := stripCSIGo l.length l

/-- Global replace of BEL-terminated OSC sequences (fuel as above). -/
def stripOSCBelGo : Nat → List Char → List Char
  | 0, l => l
  | _ + 1, [] => []
  | f + 1, c :: cs =>
    if c = escChar then
      match cs with
      | ']' :: rest =>
        match oscBelBody rest with
        | some rest' => stripOSCBelGo f rest'
        | none => c :: stripOSCBelGo f cs
      | _ => c :: stripOSCBelGo f cs
    else c :: stripOSCBelGo f cs

/-- Global replace of BEL-terminated OSC sequences by the empty string. -/
def stripOSCBel (l : List Char) : List Char := stripOSCBelGo l.length l

/-- Global replace of ST-terminated OSC sequences (fuel as above). -/
def stripOSCStGo : Nat → List Char → List Char
  | 0, l => l
  | _ + 1, [] => []
  | f + 1, c :: cs =>
    if c = escChar then
      match cs with
      | ']' :: rest =>
        match oscStBody rest with
        | some rest' => stripOSCStGo f rest'
        | none => c :: stripOSCStGo f cs
      | _ => c :: stripOSCStGo f cs
    else c :: stripOSCStGo f cs

/-- Global replace of ST-terminated OSC sequences by the empty string. -/
def stripOSCSt (l : List Char) : List Char := stripOSCStGo l.length l

/-- `OpenCodeAdapter.cleanPtyOutput`: the three global replaces in source
order. -/
def cleanPtyOutput (l : List Char) : List Char :=
  stripOSCSt (stripOSCBel (stripCSI l))

/-! ## Task session (`OpenCodeAdapter`)

JavaScript string truthiness: `x || d` falls back on `null`/`undefined`
and on the empty string; `!x` is true for `null`/`undefined` and for the
empty string.  These are modelled explicitly. -/

/-- JS `x || d` for nullable strings. -/
def orDefaultStr (o : Option String) (d : String) : String :=
  match o with
  | some s => if s.isEmpty then d else s
  | none => d

/-- JS `x || undefined` for nullable strings. -/
def nonEmptyOpt (o : Option String) : Option String :=
  match o with
  | some s => if s.isEmpty then none else some s
  | none => none

/-- JS `!x` for nullable strings. -/
def isFalsyStr (o : Option String) : Bool :=
  match o with
  | some s => s.isEmpty
  | none => true

/-- `TaskResult.status` values. -/
inductive TaskStatus where
  | success
  | error
  | cancelled
  | interrupted
deriving DecidableEq

/-- Events emitted by the adapter (`OpenCodeAdapterEvents`): `message`,
`tool-use`, `tool-result`, `permission-request`, `progress`, `complete`
(carrying the `TaskResult` fields), and `error`.  Random request ids are
not modelled. -/
inductive AdapterEvent where
  | message (m : OCMessage)
  | toolUseEv (tool : String) (input : Option Json)
  | toolResultEv (output : String)
  | permissionRequest (question : Option String) (options : Option (List (Option String)))
  | progress (stage : String) (msg : Option String) (modelName : Option String)
  | complete (status : TaskStatus) (sessionId : Option String) (err : Option String)
  | errorEv (msg : String)

/-- Session state of one `OpenCodeAdapter` instance.  The live process
handles are abstracted to the two nullity flags the control flow reads. -/
structure OpenCodeAdapter where
  streamParser : StreamParser
  currentSessionId : Option String
  currentTaskId : Option String
  hasCompleted : Bool
  isDisposed : Bool
  wasInterrupted : Bool
  currentModelId : Option String
  hasPty : Bool
  hasChild : Bool

/-- `new OpenCodeAdapter(taskId)`. -/
def mkAdapter (taskId : Option String) : OpenCodeAdapter :=
  { streamParser := mkStreamParser defaultMaxBytes
    currentSessionId := none
    currentTaskId := nonEmptyOpt taskId
    hasCompleted := false
    isDisposed := false
    wasInterrupted := false
    currentModelId := none
    hasPty := false
    hasChild := false }

/-- `handleAskUserQuestion`: read `questions[0]` from the tool input and
build the permission request, if the first question exists. -/
def extractAsk (input : Option Json) : Option (Option String × Option (List (Option String))) :=
  match input with
  | some (.obj f) =>
    match jsonLookup f (String.toList "questions") with
    | some (.arr (.obj qf :: _)) =>
      some (optStrField qf (String.toList "question"),
        match jsonLookup qf (String.toList "options") with
        | some (.arr os) =>
          some (os.map fun o =>
            match o with
            | .obj oo => optStrField oo (String.toList "label")
            | _ => none)
        | _ => none)
    | _ => none
  | _ => none

/-- The permission-request events of `handleAskUserQuestion`. -/
def askEvents (input : Option Json) : List AdapterEvent :=
  match extractAsk input with
  | some (q, opts) => [.permissionRequest q opts]
  | none => []

/-- `OpenCodeAdapter.handleMessage`: the per-record switch. -/
def OpenCodeAdapter.handleMessage (st : OpenCodeAdapter) (m : OCMessage) :
    OpenCodeAdapter × List AdapterEvent :=
  match m with
  | .step_start sid =>
    ({ st with currentSessionId := some sid },
     [.progress "connecting"
        (some ("Connecting to " ++ orDefaultStr st.currentModelId "AI" ++ "..."))
        (nonEmptyOpt st.currentModelId)])
  | .text sid _ =>
    let st' :=
      if isFalsyStr st.currentSessionId && !(isFalsyStr sid) then
        { st with currentSessionId := sid }
      else st
    (st', [.message m])
  | .tool_call tool input =>
    let toolName := orDefaultStr tool "unknown"
    (st, [.toolUseEv toolName input,
          .progress "tool-use" (some ("Using " ++ toolName)) none]
      ++ (if toolName = "AskUserQuestion" then askEvents input else []))
  | .tool_use tool status input output =>
    let toolName := orDefaultStr tool "unknown"
    (st, [.message m, .toolUseEv toolName input,
          .progress "tool-use" (some ("Using " ++ toolName)) none]
      ++ (if status = some ToolStatus.completed ∨ status = some ToolStatus.error then
            [.toolResultEv (orDefaultStr output "")]
          else [])
      ++ (if toolName = "AskUserQuestion" then askEvents input else []))
  | .tool_result output =>
    (st, [.toolResultEv (orDefaultStr output "")])
  | .step_finish reason =>
    if reason = FinishReason.error then
      if st.hasCompleted then (st, [])
      else
        ({ st with hasCompleted := true },
         [.complete .error (nonEmptyOpt st.currentSessionId) (some "Task failed")])
    else if (reason = FinishReason.stop ∨ reason = FinishReason.end_turn)
        ∧ st.hasCompleted = false then
      ({ st with hasCompleted := true },
       [.complete .success (nonEmptyOpt st.currentSessionId) none])
    else (st, [])
  | .error e =>
    ({ st with hasCompleted := true },
     [.complete .error (nonEmptyOpt st.currentSessionId) (some e)])

/-- `OpenCodeAdapter.handleProcessExit`: nulls the process handles, then
reinterprets the exit code. -/
def OpenCodeAdapter.handleProcessExit (st : OpenCodeAdapter) (code : Option Int) :
    OpenCodeAdapter × List AdapterEvent :=
  let st := { st with hasPty := false, hasChild := false }
  if st.wasInterrupted ∧ code = some 0 ∧ st.hasCompleted = false then
    ({ st with hasCompleted := true },
     [.complete .interrupted (nonEmptyOpt st.currentSessionId) none])
  else if st.hasCompleted = false then
    match code with
    | some c =>
      if c = 0 then
        ({ st with hasCompleted := true },
         [.complete .success (nonEmptyOpt st.currentSessionId) none])
      else
        (st, [.errorEv ("OpenCode CLI exited with code " ++ toString c)])
    | none => (st, [])
  else (st, [])

/-- `OpenCodeAdapter.interruptTask`: sets the interrupted flag when a live
process exists (PTY write / SIGINT are external effects). -/
def OpenCodeAdapter.interruptTask (st : OpenCodeAdapter) : OpenCodeAdapter :=
  if st.hasPty then { st with wasInterrupted := true }
  else if st.hasChild then { st with wasInterrupted := true }
  else st

/-- `OpenCodeAdapter.cancelTask`: hard-kills and nulls both handles;
emits nothing. -/
def OpenCodeAdapter.cancelTask (st : OpenCodeAdapter) : OpenCodeAdapter :=
  { st with hasPty := false, hasChild := false }

/-- `OpenCodeAdapter.dispose`: idempotent terminal cleanup. -/
def OpenCodeAdapter.dispose (st : OpenCodeAdapter) : OpenCodeAdapter :=
  if st.isDisposed then st
  else
    { st with
      isDisposed := true
      hasPty := false
      hasChild := false
      currentSessionId := none
      currentTaskId := none
      hasCompleted := true
      streamParser := st.streamParser.reset }

/-- One delivery to a session: a parsed record or a process-exit
notification. -/
inductive SessionInput where
  | record (m : OCMessage)
  | exited (code : Option Int)

/-- Deliver one input. -/
def sessionStep (st : OpenCodeAdapter) (i : SessionInput) :
    OpenCodeAdapter × List AdapterEvent :=
  match i with
  | .record m => st.handleMessage m
  | .exited code => st.handleProcessExit code

/-- Deliver a sequence of inputs, concatenating the emitted events. -/
def runSession (st : OpenCodeAdapter) :
    List SessionInput → OpenCodeAdapter × List AdapterEvent
  | [] => (st, [])
  | i :: is =>
    let r1 := sessionStep st i
    let r2 := runSession r1.1 is
    (r2.1, r1.2 ++ r2.2)

/-- Deliver a sequence of parsed records only. -/
def runRecords (st : OpenCodeAdapter) (ms : List OCMessage) : OpenCodeAdapter :=
  (runSession st (ms.map SessionInput.record)).1

/-- Terminal lifecycle events: a `complete` or a fatal `error`. -/
def isTerminalEvent (e : AdapterEvent) : Bool :=
  match e with
  | .complete _ _ _ => true
  | .errorEv _ => true
  | _ => false

/-- Number of terminal lifecycle events in an emission trace. -/
def countTerminal (evs : List AdapterEvent) : Nat :=
  (evs.filter isTerminalEvent).length

/-! ## Outbound routing (`TaskManager.startTask` wiring + sidecar `send`) -/

/-- Outbound sidecar messages produced from adapter events for one task. -/
inductive SidecarOut where
  | task_message (m : OCMessage)
  | task_progress (stage : String) (msg : Option String) (modelName : Option String)
  | permission_request (question : Option String) (options : Option (List (Option String)))
  | task_complete (status : TaskStatus) (sessionId : Option String) (err : Option String)
  | task_error (error : String)

/-- The Task Manager attaches listeners for `message`, `progress`,
`permission-request`, `complete` and `error`; `tool-use` and `tool-result`
have no listener and are dropped. -/
def routeEvent (e : AdapterEvent) : Option SidecarOut :=
  match e with
  | .message m => some (.task_message m)
  | .progress stage msg mn => some (.task_progress stage msg mn)
  | .permissionRequest q o => some (.permission_request q o)
  | .complete s sid err => some (.task_complete s sid err)
  | .errorEv msg => some (.task_error msg)
  | .toolUseEv _ _ => none
  | .toolResultEv _ => none

/-- Route an emission trace to the outbound stream. -/
def routeEvents (evs : List AdapterEvent) : List SidecarOut :=
  evs.filterMap routeEvent

/-! ## Task Manager -/

/-- One registry entry (`ManagedTask`): the adapter and whether the five
listeners are still attached. -/
structure ManagedTask where
  adapter : OpenCodeAdapter
  listenersAttached : Bool

/-- `TaskManager` state: the `activeTasks` map (association list in
insertion order, keys unique) and the concurrency ceiling. -/
structure TaskManager where
  activeTasks : List (String × ManagedTask)
  maxConcurrentTasks : Nat

/-- `new TaskManager(options?)`: `maxConcurrentTasks` defaults to 10. -/
def TaskManager.new (opts : Option Nat) : TaskManager :=
  { activeTasks := [], maxConcurrentTasks := opts.getD 10 }

/-- `activeTasks.get(taskId)`. -/
def TaskManager.lookupTask (m : TaskManager) (taskId : String) : Option ManagedTask :=
  (m.activeTasks.find? fun kv => kv.1 == taskId).map (·.2)

/-- `TaskManager.hasActiveTask`. -/
def TaskManager.hasActiveTask (m : TaskManager) (taskId : String) : Bool :=
  (m.lookupTask taskId).isSome

/-- `activeTasks.delete(taskId)`. -/
def eraseTask (l : List (String × ManagedTask)) (taskId : String) :
    List (String × ManagedTask) :=
  l.filter fun kv => !(kv.1 == taskId)

/-- The `cleanup` closure: detach the five listeners and dispose the
adapter. -/
def cleanupManaged (t : ManagedTask) : ManagedTask :=
  { adapter := t.adapter.dispose, listenersAttached := false }

/-- `TaskManager.cleanupTask`: clean up and unregister, if registered.
Returns the cleaned-up entry so its final state can be observed. -/
def TaskManager.cleanupTask (m : TaskManager) (taskId : String) :
    TaskManager × Option ManagedTask :=
  match m.lookupTask taskId with
  | some t =>
    ({ m with activeTasks := eraseTask m.activeTasks taskId }, some (cleanupManaged t))
  | none => (m, none)

/-- Whether `adapter.startTask` returns or throws (CLI missing, spawn
failure); external to the registry logic. -/
inductive StartOutcome where
  | ok
  | fail (msg : String)

/-- `TaskManager.startTask`: duplicate check, concurrency check, register,
start; on a start failure clean up and rethrow.  The second component is
the error thrown, if any. -/
def TaskManager.startTask (m : TaskManager) (taskId : String)
    (outcome : StartOutcome) : TaskManager × Option String :=
  if m.hasActiveTask taskId then
    (m, some ("Task " ++ taskId ++ " is already running"))
  else if m.activeTasks.length ≥ m.maxConcurrentTasks then
    (m, some ("Maximum concurrent tasks (" ++ toString m.maxConcurrentTasks ++ ") reached"))
  else
    let managed : ManagedTask :=
      { adapter := mkAdapter (some taskId), listenersAttached := true }
    let m1 : TaskManager :=
      { m with activeTasks := m.activeTasks ++ [(taskId, managed)] }
    match outcome with
    | .ok => (m1, none)
    | .fail e => ((m1.cleanupTask taskId).1, some e)

/-- `TaskManager.cancelTask`: look up; if present, hard-kill via the
adapter (which emits nothing) and clean up in `finally`; unknown ids are a
no-op.  The second component is the emission trace of the call. -/
def TaskManager.cancelTask (m : TaskManager) (taskId : String) :
    TaskManager × List AdapterEvent :=
  match m.lookupTask taskId with
  | none => (m, [])
  | some _ =>
    let m1 : TaskManager :=
      { m with
        activeTasks := m.activeTasks.map fun kv =>
          if kv.1 == taskId then (kv.1, { kv.2 with adapter := kv.2.adapter.cancelTask })
          else kv }
    ((m1.cleanupTask taskId).1, [])

/-! ## Adapter data pipeline (`startTask`'s `onData` handler)

Each raw chunk is cleaned with `cleanPtyOutput` and fed to the Stream
Parser only if the cleaned text is not all-whitespace
(`if (cleanData.trim())`). -/

/-- One `onData` delivery. -/
def adapterFeed (p : StreamParser) (raw : List Char) :
    StreamParser × List ParserEvent :=
  let clean := cleanPtyOutput raw
  if clean.any (fun c => !c.isWhitespace) then p.feed clean else (p, [])

/-- A sequence of `onData` deliveries. -/
def adapterFeedAll (p : StreamParser) :
    List (List Char) → StreamParser × List ParserEvent
  | [] => (p, [])
  | c :: cs =>
    let r1 := adapterFeed p c
    let r2 := adapterFeedAll r1.1 cs
    (r2.1, r1.2 ++ r2.2)

/-- All records a fresh session's parser emits for a raw chunk sequence. -/
def pipelineMessages (chunks : List (List Char)) : List OCMessage :=
  messagesOf (adapterFeedAll (mkStreamParser defaultMaxBytes) chunks).2

mutual

/-- No string value anywhere in the JSON tree contains the escape
character. -/
def Json.escFree : Json → Bool
  | .null => true
  | .bool _ => true
  | .num _ => true
  | .str s => s.all (fun c => c != escChar)
  | .arr xs => escFreeList xs
  | .obj kvs => escFreeFields kvs

/-- `escFree` on every element. -/
def escFreeList : List Json → Bool
  | [] => true
  | j :: js => j.escFree && escFreeList js

/-- `escFree` on every field value. -/
def escFreeFields : List (List Char × Json) → Bool
  | [] => true
  | kv :: kvs => kv.2.escFree && escFreeFields kvs

end

/-! ## Concrete inputs used in counterexamples and witnesses -/

/-- A newline-free run one byte longer than the reference ceiling. -/
def hugeRun : List Char := List.replicate (defaultMaxBytes + 1) 'a'

/-- A well-formed `text` record line (without its newline). -/
def helloRecord : List Char :=
  String.toList "\x7b\"type\":\"text\",\"part\":\x7b\"text\":\"Hello\"\x7d\x7d"

/-- First fragment of the spec's fragmentation scenario: the `text` record
split inside its `type` value. -/
def fragChunk1 : List Char := String.toList "\x7b\"type\":\"te"

/-- Second fragment of the spec's fragmentation scenario. -/
def fragChunk2 : List Char :=
  String.toList "xt\",\"part\":\x7b\"text\":\"Hello\"\x7d\x7d\n"

/-- A chunk sequence with a CSI sequence split across the first two chunk
boundaries, followed by a well-formed `text` record. -/
def c9chunks : List (List Char) :=
  [String.toList "\x1B", String.toList "[31m\n", helloRecord ++ ['\n']]

/-- A one-slot Task Manager already running task `a`. -/
def mgrOneTask : TaskManager :=
  { activeTasks := [("a", { adapter := mkAdapter (some "a"), listenersAttached := true })]
    maxConcurrentTasks := 1 }

/-! ## Lemmas about line splitting -/

theorem splitLines_no_newline {l : List Char} (h : '\n' ∉ l) :
    splitLines l = ([], l) := by
  induction l with
  | nil => rfl
  | cons c cs ih =>
    have hc : c ≠ '\n' := fun hc => h (by simp [hc])
    have hcs : '\n' ∉ cs := fun hm => h (List.mem_cons_of_mem _ hm)
    simp [splitLines, ih hcs, Ne.symm hc, hc]

theorem splitLines_rest_no_newline (l : List Char) : '\n' ∉ (splitLines l).2 := by
  induction l with
  | nil => simp [splitLines]
  | cons c cs ih =>
    by_cases hc : c = '\n'
    · simpa [splitLines, hc] using ih
    · rcases hp : (splitLines cs).1 with _ | ⟨l1, ls⟩
      · simp [splitLines, hc, hp]
        exact ⟨fun he => hc he.symm, ih⟩
      · simpa [splitLines, hc, hp] using ih

theorem splitLines_cons (c : Char) (cs : List Char) :
    splitLines (c :: cs) =
      if c = '\n' then ([] :: (splitLines cs).1, (splitLines cs).2)
      else
        match (splitLines cs).1 with
        | l :: ls => ((c :: l) :: ls, (splitLines cs).2)
        | [] => ([], c :: (splitLines cs).2) := rfl

theorem splitLines_append (x y : List Char) :
    splitLines (x ++ y) =
      ((splitLines x).1 ++ (splitLines ((splitLines x).2 ++ y)).1,
       (splitLines ((splitLines x).2 ++ y)).2) := by
  induction x with
  | nil => simp [splitLines]
  | cons c cs ih =>
    rw [List.cons_append, splitLines_cons, splitLines_cons, ih]
    by_cases hc : c = '\n'
    · simp [hc]
    · rcases hp : (splitLines cs).1 with _ | ⟨l1, ls⟩
      · simp only [hc, ite_false, hp, List.nil_append]
        rw [List.cons_append, splitLines_cons]
        simp only [hc, ite_false]
      · simp [hc, hp]

/-! ## Feed composition (no-overflow case) -/

theorem feed_no_overflow {p : StreamParser} {a : List Char}
    (h : (splitLines (p.buffer ++ a)).2.length ≤ p.maxBytes) :
    p.feed a = ({ p with buffer := (splitLines (p.buffer ++ a)).2 },
                (splitLines (p.buffer ++ a)).1.map lineEvent) := by
  simp only [StreamParser.feed]
  rw [if_neg]
  omega

theorem feed_append {p : StreamParser} {a b : List Char}
    (h : (splitLines (p.buffer ++ a)).2.length ≤ p.maxBytes) :
    p.feed (a ++ b) =
      (((p.feed a).1.feed b).1, (p.feed a).2 ++ ((p.feed a).1.feed b).2) := by
  have h1 := feed_no_overflow h
  rw [h1]
  have hsl := splitLines_append (p.buffer ++ a) b
  simp only [StreamParser.feed]
  rw [show p.buffer ++ (a ++ b) = (p.buffer ++ a) ++ b by simp, hsl]
  by_cases hov :
      (splitLines ((splitLines (p.buffer ++ a)).2 ++ b)).2.length > p.maxBytes
  · rw [if_pos hov, if_pos hov]
    simp
  · rw [if_neg hov, if_neg hov]
    simp

theorem feedAll_eq_feed_flatten :
    ∀ (chunks : List (List Char)) (p : StreamParser), '\n' ∉ p.buffer →
    (∀ i, i ≤ chunks.length →
      (splitLines (p.buffer ++ (chunks.take i).flatten)).2.length ≤ p.maxBytes) →
    feedAll p chunks = p.feed chunks.flatten := by
  intro chunks
  induction chunks with
  | nil =>
    intro p hb h
    have h0 := h 0 (by simp)
    simp only [List.take_zero, List.flatten_nil, List.append_nil] at h0
    rw [List.flatten_nil, feedAll, feed_no_overflow (by simpa using h0)]
    simp [splitLines_no_newline hb]
  | cons c cs ih =>
    intro p hb h
    have h1 : (splitLines (p.buffer ++ c)).2.length ≤ p.maxBytes := by
      have := h 1 (by simp)
      simpa using this
    have hfeed := feed_no_overflow h1
    have hb1 : '\n' ∉ (p.feed c).1.buffer := by
      rw [hfeed]
      exact splitLines_rest_no_newline _
    have hrec : ∀ i, i ≤ cs.length →
        (splitLines ((p.feed c).1.buffer ++ (cs.take i).flatten)).2.length ≤
          (p.feed c).1.maxBytes := by
      intro i hi
      rw [hfeed]
      have hnext := h (i + 1) (by simpa using hi)
      have hsl := splitLines_append (p.buffer ++ c) ((cs.take i).flatten)
      simp only [List.take_succ_cons, List.flatten_cons] at hnext
      rw [show p.buffer ++ (c ++ (cs.take i).flatten) =
          (p.buffer ++ c) ++ (cs.take i).flatten by simp, hsl] at hnext
      exact hnext
    have ihh := ih (p.feed c).1 hb1 hrec
    rw [List.flatten_cons, feed_append h1, feedAll]
    rw [ihh]

/-- Per-call buffer bound: after any single `feed` the re-buffered
remainder is within `maxBytes` (it is cleared on overflow). -/
theorem feed_buffer_le (p : StreamParser) (chunk : List Char) :
    (p.feed chunk).1.buffer.length ≤ p.maxBytes ∧
      (p.feed chunk).1.maxBytes = p.maxBytes := by
  simp only [StreamParser.feed]
  by_cases hov : (splitLines (p.buffer ++ chunk)).2.length > p.maxBytes
  · rw [if_pos hov]
    simp
  · rw [if_neg hov]
    simp
    omega

/-- The buffer bound holds after any sequence of feeds from a fresh
parser. -/
theorem feedAll_buffer_le :
    ∀ (chunks : List (List Char)) (p : StreamParser),
      p.buffer.length ≤ p.maxBytes →
      (feedAll p chunks).1.buffer.length ≤ (feedAll p chunks).1.maxBytes ∧
        (feedAll p chunks).1.maxBytes = p.maxBytes := by
  intro chunks
  induction chunks with
  | nil => intro p hp; simpa [feedAll] using hp
  | cons c cs ih =>
    intro p hp
    have h1 := feed_buffer_le p c
    have h2 := ih (p.feed c).1 (h1.2 ▸ h1.1)
    rw [feedAll]
    exact ⟨h2.1, h2.2.trans h1.2⟩

theorem splitLines_append_newline {l : List Char} (h : '\n' ∉ l) :
    splitLines (l ++ ['\n']) = ([l], []) := by
  induction l with
  | nil => rfl
  | cons c cs ih =>
    have hc : c ≠ '\n' := fun hc => h (by simp [hc])
    have hcs : '\n' ∉ cs := fun hm => h (List.mem_cons_of_mem _ hm)
    rw [List.cons_append, splitLines_cons, ih hcs]
    simp [hc]

theorem parseVal_head_a (fuel : Nat) (l : List Char) :
    parseVal fuel ('a' :: l) = none := by
  cases fuel with
  | zero => rfl
  | succ n => rfl

theorem parseRecordLine_head_a (l : List Char) :
    parseRecordLine ('a' :: l) = none := rfl

theorem lineEvent_head_a (l : List Char) :
    lineEvent ('a' :: l) = ParserEvent.parseFail ('a' :: l) := rfl

/-! ## Escape characters never survive record parsing -/

theorem decodeEsc_no_esc {e d : Char} (h : decodeEsc e = some d) : d ≠ escChar := by
  simp only [decodeEsc] at h
  split_ifs at h <;> simp only [Option.some.injEq] at h <;> subst h <;> decide

theorem strBody_no_esc : ∀ (l : List Char) (s r : List Char),
    strBody l = some (s, r) → escChar ∉ s := by
  intro l
  induction l using strBody.induct with
  | case1 =>
    intro s r h
    rw [strBody.eq_def] at h
    simp at h
  | case2 cs =>
    intro s r h
    rw [strBody.eq_def] at h
    simp at h
    simp [h.1]
  | case3 hne =>
    intro s r h
    rw [strBody.eq_def] at h
    simp at h
  | case4 c cs hdec hne =>
    intro s r h
    rw [strBody.eq_def] at h
    simp [hdec] at h
  | case5 c cs d hdec s' rest hcs hne ih =>
    intro s r h
    rw [strBody.eq_def] at h
    simp [hdec, hcs] at h
    rw [← h.1]
    intro hmem
    rcases List.mem_cons.mp hmem with he | hm
    · exact decodeEsc_no_esc hdec he.symm
    · exact ih s' rest hcs hm
  | case6 c cs d hdec hcs hne ih =>
    intro s r h
    rw [strBody.eq_def] at h
    simp [hdec, hcs] at h
  | case7 c cs hq hb hctl =>
    intro s r h
    rw [strBody.eq_def] at h
    simp [hq, hb, hctl] at h
  | case8 c cs hq hb hctl s' rest hcs ih =>
    intro s r h
    rw [strBody.eq_def] at h
    simp [hq, hb, hctl, hcs] at h
    rw [← h.1]
    intro hmem
    rcases List.mem_cons.mp hmem with he | hm
    · exact hctl (by rw [← he]; decide)
    · exact ih s' rest hcs hm
  | case9 c cs hq hb hctl hcs ih =>
    intro s r h
    rw [strBody.eq_def] at h
    simp [hq, hb, hctl, hcs] at h

theorem parseVal_succ_eq (n : Nat) (l : List Char) :
    parseVal (n + 1) l =
      match skipWs l with
      | [] => none
      | c :: cs =>
        if c = '"' then
          match strBody cs with
          | some (s, rest) => some (.str s, rest)
          | none => none
        else if c = '\x7b' then parseFields n cs
        else if c = '[' then parseElems n cs
        else if c = 't' then
          match cs with
          | 'r' :: 'u' :: 'e' :: rest => some (.bool true, rest)
          | _ => none
        else if c = 'f' then
          match cs with
          | 'a' :: 'l' :: 's' :: 'e' :: rest => some (.bool false, rest)
          | _ => none
        else if c = 'n' then
          match cs with
          | 'u' :: 'l' :: 'l' :: rest => some (.null, rest)
          | _ => none
        else if isNumChar c then
          let (a, b) := takeNum cs
          some (.num (c :: a), b)
        else none := rfl

theorem parseFields_succ_eq (n : Nat) (l : List Char) :
    parseFields (n + 1) l =
      match skipWs l with
      | '\x7d' :: rest => some (.obj [], rest)
      | '"' :: cs =>
        match strBody cs with
        | none => none
        | some (key, r1) =>
          match skipWs r1 with
          | ':' :: r2 =>
            match parseVal n r2 with
            | none => none
            | some (v, r3) =>
              match skipWs r3 with
              | '\x7d' :: r4 => some (.obj [(key, v)], r4)
              | ',' :: r4 =>
                match parseFields n r4 with
                | some (.obj fs, rest) => some (.obj ((key, v) :: fs), rest)
                | _ => none
              | _ => none
          | _ => none
      | _ => none := rfl

theorem parseElems_succ_eq (n : Nat) (l : List Char) :
    parseElems (n + 1) l =
      match skipWs l with
      | ']' :: rest => some (.arr [], rest)
      | l' =>
        match parseVal n l' with
        | none => none
        | some (v, r1) =>
          match skipWs r1 with
          | ']' :: r2 => some (.arr [v], r2)
          | ',' :: r2 =>
            match parseElems n r2 with
            | some (.arr vs, rest) => some (.arr (v :: vs), rest)
            | _ => none
          | _ => none := rfl

theorem escFree_str_of_not_mem {s : List Char} (h : escChar ∉ s) :
    (Json.str s).escFree = true := by
  simp [Json.escFree, List.all_eq_true]
  intro c hc he
  exact h (he ▸ hc)

theorem parse_escFree (fuel : Nat) :
    (∀ l j r, parseVal fuel l = some (j, r) → j.escFree = true) ∧
    (∀ l j r, parseFields fuel l = some (j, r) → j.escFree = true) ∧
    (∀ l j r, parseElems fuel l = some (j, r) → j.escFree = true) := by
  induction fuel with
  | zero =>
    refine ⟨?_, ?_, ?_⟩ <;> intro l j r h
    · rw [parseVal.eq_def] at h; simp at h
    · rw [parseFields.eq_def] at h; simp at h
    · rw [parseElems.eq_def] at h; simp at h
  | succ n ih =>
    obtain ⟨ihv, ihf, ihe⟩ := ih
    refine ⟨?_, ?_, ?_⟩
    · intro l j r h
      rw [parseVal_succ_eq] at h
      split at h
      next => simp at h
      next c cs heq =>
        split_ifs at h with h1 h2 h3 h4 h5 h6 h7
        · split at h
          next s rest hsb =>
            simp at h
            rw [← h.1]
            exact escFree_str_of_not_mem (strBody_no_esc cs s rest hsb)
          next => simp at h
        · exact ihf cs j r h
        · exact ihe cs j r h
        · split at h
          next rest => simp at h; rw [← h.1]; simp [Json.escFree]
          next => simp at h
        · split at h
          next rest => simp at h; rw [← h.1]; simp [Json.escFree]
          next => simp at h
        · split at h
          next rest => simp at h; rw [← h.1]; simp [Json.escFree]
          next => simp at h
        · rcases htn : takeNum cs with ⟨a, b⟩
          rw [htn] at h
          simp at h
          rw [← h.1]
          simp [Json.escFree]
    · intro l j r h
      rw [parseFields_succ_eq] at h
      split at h
      next rest heq =>
        simp at h
        rw [← h.1]
        simp [Json.escFree, escFreeFields]
      next cs heq =>
        split at h
        next => simp at h
        next key r1 hsb =>
          split at h
          next r2 heq2 =>
            split at h
            next => simp at h
            next v r3 hpv =>
              split at h
              next r4 heq3 =>
                simp at h
                rw [← h.1]
                have hv := ihv r2 v r3 hpv
                simp [Json.escFree, escFreeFields, hv]
              next r4 heq3 =>
                split at h
                next fs rest hpf =>
                  simp at h
                  rw [← h.1]
                  have hv := ihv r2 v r3 hpv
                  have hf := ihf r4 (Json.obj fs) rest hpf
                  simp [Json.escFree, escFreeFields] at hf ⊢
                  exact ⟨hv, hf⟩
                next => simp at h
              next => simp at h
          next => simp at h
      next => simp at h
    · intro l j r h
      rw [parseElems_succ_eq] at h
      split at h
      next rest heq =>
        simp at h
        rw [← h.1]
        simp [Json.escFree, escFreeList]
      next l2 heq =>
        split at h
        next => simp at h
        next v r1 hpv =>
          split at h
          next r2 heq2 =>
            simp at h
            rw [← h.1]
            have hv := ihv _ v r1 hpv
            simp [Json.escFree, escFreeList, hv]
          next r2 heq2 =>
            split at h
            next vs rest hpe =>
              simp at h
              rw [← h.1]
              have hv := ihv _ v r1 hpv
              have he2 := ihe r2 (Json.arr vs) rest hpe
              simp [Json.escFree, escFreeList] at he2 ⊢
              exact ⟨hv, he2⟩
            next => simp at h
          next => simp at h

theorem parseJsonLine_escFree {l : List Char} {j : Json}
    (h : parseJsonLine l = some j) : j.escFree = true := by
  unfold parseJsonLine at h
  rcases hp : parseVal (l.length + 1) l with _ | ⟨jv, rest⟩
  · rw [hp] at h; simp at h
  · rw [hp] at h
    simp only [] at h
    split_ifs at h with hw
    simp at h
    rw [← h]
    exact (parse_escFree _).1 l jv rest hp

theorem jsonLookup_escFree : ∀ (fields : List (List Char × Json)) (k : List Char) (j : Json),
    escFreeFields fields = true → jsonLookup fields k = some j → j.escFree = true := by
  intro fields
  induction fields with
  | nil =>
    intro k j hf h
    simp [jsonLookup] at h
  | cons kv kvs ih =>
    intro k j hf h
    rcases kv with ⟨k1, v1⟩
    rw [escFreeFields] at hf
    simp at hf
    rw [jsonLookup] at h
    split_ifs at h
    · simp at h
      rw [← h]
      exact hf.1
    · exact ih k j hf.2 h

theorem not_mem_of_escFree_str {s : List Char}
    (h : (Json.str s).escFree = true) : escChar ∉ s := by
  rw [Json.escFree] at h
  simp [List.all_eq_true] at h
  intro hm
  exact h escChar hm rfl

theorem partFields_escFree {fields : List (List Char × Json)}
    {p : List (List Char × Json)} (hfree : escFreeFields fields = true)
    (hp : partFields fields = some p) : escFreeFields p = true := by
  unfold partFields at hp
  rcases hr : jsonLookup fields (String.toList "part") with _ | w <;> rw [hr] at hp
  · simp at hp
  · rcases w with _ | _ | _ | _ | _ | pf <;> try simp at hp
    have hw := jsonLookup_escFree fields (String.toList "part") (.obj pf) hfree hr
    rw [Json.escFree] at hw
    rw [← hp]
    exact hw

theorem recText_no_esc {fields : List (List Char × Json)} {sid : Option String}
    {content : String} (hfree : escFreeFields fields = true)
    (h : recText fields = some (.text sid content)) : escChar ∉ content.data := by
  unfold recText at h
  rcases hp : partFields fields with _ | p <;> rw [hp] at h <;> try simp only [] at h
  · simp at h
  · rcases hq : jsonLookup p (String.toList "text") with _ | v <;> rw [hq] at h <;>
      try simp only [] at h
    · simp at h
    · rcases v with _ | _ | _ | s | _ | _ <;> try simp at h
      have hpfree := partFields_escFree hfree hp
      have hsfree := jsonLookup_escFree p (String.toList "text") (.str s) hpfree hq
      have hnm := not_mem_of_escFree_str hsfree
      rw [← h.2]
      exact hnm

theorem recStepStart_not_text {fields : List (List Char × Json)}
    {sid : Option String} {content : String}
    (h : recStepStart fields = some (.text sid content)) : False := by
  unfold recStepStart at h
  rcases hp : partFields fields with _ | p <;> rw [hp] at h <;> try simp only [] at h
  · simp at h
  · rcases hq : jsonLookup p (String.toList "sessionID") with _ | v <;>
      rw [hq] at h <;> try simp only [] at h
    · simp at h
    · rcases v <;> simp at h

theorem recToolCall_not_text {fields : List (List Char × Json)}
    {sid : Option String} {content : String}
    (h : recToolCall fields = some (.text sid content)) : False := by
  unfold recToolCall at h
  rcases hp : partFields fields with _ | p <;> rw [hp] at h <;> simp at h

theorem recToolUse_not_text {fields : List (List Char × Json)}
    {sid : Option String} {content : String}
    (h : recToolUse fields = some (.text sid content)) : False := by
  unfold recToolUse at h
  rcases hp : partFields fields with _ | p <;> rw [hp] at h <;> try simp only [] at h
  · simp at h
  · rcases hs : jsonLookup p (String.toList "state") with _ | w <;>
      rw [hs] at h <;> try simp only [] at h
    · simp at h
    · rcases w <;> simp at h

theorem recToolResult_not_text {fields : List (List Char × Json)}
    {sid : Option String} {content : String}
    (h : recToolResult fields = some (.text sid content)) : False := by
  unfold recToolResult at h
  rcases hp : partFields fields with _ | p <;> rw [hp] at h <;> simp at h

theorem recStepFinish_not_text {fields : List (List Char × Json)}
    {sid : Option String} {content : String}
    (h : recStepFinish fields = some (.text sid content)) : False := by
  unfold recStepFinish at h
  rcases hp : partFields fields with _ | p <;> rw [hp] at h <;> try simp only [] at h
  · simp at h
  · rcases hr : jsonLookup p (String.toList "reason") with _ | v <;>
      rw [hr] at h <;> try simp only [] at h
    · simp at h
    · rcases v with _ | _ | _ | rs | _ | _ <;> try simp at h
      rcases hd : decodeReason rs with _ | reason <;> rw [hd] at h <;> simp at h

theorem recError_not_text {fields : List (List Char × Json)}
    {sid : Option String} {content : String}
    (h : recError fields = some (.text sid content)) : False := by
  unfold recError at h
  rcases he : jsonLookup fields (String.toList "error") with _ | v <;>
    rw [he] at h <;> try simp only [] at h
  · simp at h
  · rcases v <;> simp at h

theorem parseRecordLine_text_no_esc (l : List Char) (sid : Option String)
    (content : String) (h : parseRecordLine l = some (.text sid content)) :
    escChar ∉ content.data := by
  unfold parseRecordLine at h
  rcases hpj : parseJsonLine l with _ | j <;> rw [hpj] at h <;> try simp only [] at h
  · simp at h
  · rcases j with _ | b | raw | s | xs | fields <;> try simp only [] at h
    · simp at h
    · simp at h
    · simp at h
    · simp at h
    · simp at h
    · rcases hlt : jsonLookup fields (String.toList "type") with _ | tj <;>
        rw [hlt] at h <;> try simp only [] at h
      · simp at h
      · rcases tj with _ | _ | _ | t | _ | _ <;> try simp only [] at h
        · simp at h
        · simp at h
        · simp at h
        · have hfree : escFreeFields fields = true := by
            have hj := parseJsonLine_escFree hpj
            rwa [Json.escFree] at hj
          split_ifs at h with h1 h2 h3 h4 h5 h6 h7
          · exact (recStepStart_not_text h).elim
          · exact recText_no_esc hfree h
          · exact (recToolCall_not_text h).elim
          · exact (recToolUse_not_text h).elim
          · exact (recToolResult_not_text h).elim
          · exact (recStepFinish_not_text h).elim
          · exact (recError_not_text h).elim
        · simp at h
        · simp at h

/-! ## C7 and C8: Stream Parser claims -/

/-- C7 (counterexample): fragmentation transparency fails as universally
stated.  A valid `text` record preceded by a 10 MiB + 1 newline-free run,
split after the run, loses the record to the overflow reset, while the
single-feed run keeps it buffered and (here, because the junk prefix makes
the line unparseable) drops the whole line as noise: the two partitions of
the same byte sequence emit different record sequences. -/
theorem claim_C7_counterexample :
    messagesOf (feedAll (mkStreamParser defaultMaxBytes)
        [hugeRun, helloRecord ++ ['\n']]).2 ≠
      messagesOf ((mkStreamParser defaultMaxBytes).feed
        (hugeRun ++ (helloRecord ++ ['\n']))).2 := by
  have hnoA : '\n' ∉ hugeRun := by
    simp [hugeRun, List.mem_replicate]
  have hnoB : '\n' ∉ helloRecord := by decide
  have hnoAB : '\n' ∉ hugeRun ++ helloRecord := by
    simp only [List.mem_append]
    rintro (hm | hm)
    · exact hnoA hm
    · exact hnoB hm
  have hfeed1 : (mkStreamParser defaultMaxBytes).feed hugeRun
      = (mkStreamParser defaultMaxBytes, [ParserEvent.overflow]) := by
    simp only [StreamParser.feed, mkStreamParser, List.nil_append]
    rw [splitLines_no_newline hnoA, if_pos]
    · simp
    · simp [hugeRun]
  have hchunk : messagesOf (feedAll (mkStreamParser defaultMaxBytes)
      [hugeRun, helloRecord ++ ['\n']]).2
      = messagesOf ((mkStreamParser defaultMaxBytes).feed (helloRecord ++ ['\n'])).2 := by
    simp only [feedAll, hfeed1]
    simp [messagesOf, eventMessage]
  have hconc : messagesOf ((mkStreamParser defaultMaxBytes).feed
      (helloRecord ++ ['\n'])).2 = [OCMessage.text none "Hello"] := rfl
  have hsingle : ((mkStreamParser defaultMaxBytes).feed
      (hugeRun ++ (helloRecord ++ ['\n']))).2
      = [lineEvent (hugeRun ++ helloRecord)] := by
    simp only [StreamParser.feed, mkStreamParser, List.nil_append]
    rw [show hugeRun ++ (helloRecord ++ ['\n'])
        = (hugeRun ++ helloRecord) ++ ['\n'] by simp,
      splitLines_append_newline hnoAB, if_neg]
    · simp
    · simp
  have hhead : hugeRun ++ helloRecord
      = 'a' :: (List.replicate defaultMaxBytes 'a' ++ helloRecord) := by
    have h0 : hugeRun = 'a' :: List.replicate defaultMaxBytes 'a' := by
      show List.replicate (defaultMaxBytes + 1) 'a' = _
      rw [List.replicate_succ]
    rw [h0, List.cons_append]
  rw [hchunk, hconc, hsingle, hhead, lineEvent_head_a]
  simp [messagesOf, eventMessage]

/-- C7 (amended): fragmentation transparency holds whenever the overflow
path is never taken, i.e. no prefix of the byte sequence leaves an
unterminated (newline-free) trailing line longer than `maxBytes`: then any
chunking emits exactly the events of a single feed of the whole
sequence, and leaves the parser in the same state. -/
theorem claim_C7_fragmentation_amended (maxB : Nat) (chunks : List (List Char))
    (h : ∀ i, i ≤ chunks.length →
      (splitLines ((chunks.take i).flatten)).2.length ≤ maxB) :
    feedAll (mkStreamParser maxB) chunks = (mkStreamParser maxB).feed chunks.flatten := by
  apply feedAll_eq_feed_flatten
  · simp [mkStreamParser]
  · intro i hi
    simpa [mkStreamParser] using h i hi

/-- C7 witness: the spec's own scenario — a `text` record split inside its
`type` key — emits the same events chunked as in one feed. -/
theorem claim_C7_witness :
    feedAll (mkStreamParser 64) [fragChunk1, fragChunk2]
      = (mkStreamParser 64).feed (List.flatten [fragChunk1, fragChunk2]) :=
  claim_C7_fragmentation_amended 64 [fragChunk1, fragChunk2] (by decide)

/-- C8: feeding a chunk that leaves more than `maxBytes` of data buffered
without a newline raises exactly one recoverable error and clears the
buffer (so later feeds start from a fresh buffer); the buffered state
after any feed sequence never exceeds `maxBytes`; the reference ceiling is
10 MiB. -/
theorem claim_C8_buffer_overflow :
    (∀ (p : StreamParser) (chunk : List Char),
       '\n' ∉ p.buffer ++ chunk →
       (p.buffer ++ chunk).length > p.maxBytes →
       p.feed chunk = ({ p with buffer := [] }, [ParserEvent.overflow])) ∧
    (∀ (maxB : Nat) (chunks : List (List Char)),
       (feedAll (mkStreamParser maxB) chunks).1.buffer.length ≤ maxB) ∧
    defaultMaxBytes = 10 * 1024 * 1024 := by
  refine ⟨?_, ?_, rfl⟩
  · intro p chunk hnl hlen
    simp only [StreamParser.feed]
    rw [splitLines_no_newline hnl, if_pos]
    · simp
    · simpa using hlen
  · intro maxB chunks
    have h := feedAll_buffer_le chunks (mkStreamParser maxB) (by simp [mkStreamParser])
    calc (feedAll (mkStreamParser maxB) chunks).1.buffer.length
        ≤ (feedAll (mkStreamParser maxB) chunks).1.maxBytes := h.1
      _ = maxB := h.2

/-- C8 witness: a 4-byte newline-free chunk overflows a 3-byte parser,
emitting one error and clearing the buffer. -/
theorem claim_C8_witness :
    (mkStreamParser 3).feed (String.toList "aaaa")
      = (mkStreamParser 3, [ParserEvent.overflow]) :=
  claim_C8_buffer_overflow.1 (mkStreamParser 3) (String.toList "aaaa")
    (by decide) (by decide)

/-! ## Records in the pipeline all come from parsed lines -/

theorem messagesOf_append (a b : List ParserEvent) :
    messagesOf (a ++ b) = messagesOf a ++ messagesOf b := by
  simp [messagesOf]

theorem eventMessage_lineEvent_none {l : List Char}
    (h : parseRecordLine l = none) : eventMessage (lineEvent l) = none := by
  simp [lineEvent, h, eventMessage]

theorem eventMessage_lineEvent_some {l : List Char} {m : OCMessage}
    (h : parseRecordLine l = some m) : eventMessage (lineEvent l) = some m := by
  simp [lineEvent, h, eventMessage]

theorem mem_messagesOf_map_lineEvent :
    ∀ {ls : List (List Char)} {m : OCMessage},
    m ∈ messagesOf (ls.map lineEvent) → ∃ line, parseRecordLine line = some m := by
  intro ls
  induction ls with
  | nil => intro m h; simp [messagesOf] at h
  | cons l ls ih =>
    intro m h
    rw [List.map_cons, messagesOf, List.filterMap_cons] at h
    rcases hle : parseRecordLine l with _ | m0
    · rw [eventMessage_lineEvent_none hle] at h
      exact ih h
    · rw [eventMessage_lineEvent_some hle] at h
      rcases List.mem_cons.mp h with rfl | hm
      · exact ⟨l, hle⟩
      · exact ih hm

theorem mem_messagesOf_feed {p : StreamParser} {chunk : List Char} {m : OCMessage}
    (h : m ∈ messagesOf (p.feed chunk).2) :
    ∃ line, parseRecordLine line = some m := by
  simp only [StreamParser.feed] at h
  by_cases hov : (splitLines (p.buffer ++ chunk)).2.length > p.maxBytes
  · rw [if_pos hov] at h
    simp only [messagesOf_append] at h
    rcases List.mem_append.mp h with h1 | h2
    · exact mem_messagesOf_map_lineEvent h1
    · simp [messagesOf, eventMessage] at h2
  · rw [if_neg hov] at h
    exact mem_messagesOf_map_lineEvent h

theorem mem_messagesOf_adapterFeed {p : StreamParser} {raw : List Char} {m : OCMessage}
    (h : m ∈ messagesOf (adapterFeed p raw).2) :
    ∃ line, parseRecordLine line = some m := by
  unfold adapterFeed at h
  simp only [] at h
  split_ifs at h
  · exact mem_messagesOf_feed h
  · simp [messagesOf, eventMessage] at h

theorem mem_messagesOf_adapterFeedAll :
    ∀ (chunks : List (List Char)) (p : StreamParser) (m : OCMessage),
    m ∈ messagesOf (adapterFeedAll p chunks).2 →
    ∃ line, parseRecordLine line = some m := by
  intro chunks
  induction chunks with
  | nil => intro p m h; simp [adapterFeedAll, messagesOf] at h
  | cons c cs ih =>
    intro p m h
    simp only [adapterFeedAll, messagesOf_append] at h
    rcases List.mem_append.mp h with h1 | h2
    · exact mem_messagesOf_adapterFeed h1
    · exact ih (adapterFeed p c).1 m h2

/-- C9: a `text` record emitted by the session's data pipeline — raw
chunks cleaned with `cleanPtyOutput` per chunk, then fed to the Stream
Parser — never carries the terminal escape character in its content, for
every chunk sequence, including escape sequences split across chunk
boundaries (a line still containing a raw escape byte is rejected by
structural parsing, so no `Text` event arises from it). -/
theorem claim_C9_text_no_escapes (chunks : List (List Char)) (sid : Option String)
    (content : String)
    (h : OCMessage.text sid content ∈ pipelineMessages chunks) :
    escChar ∉ content.data := by
  obtain ⟨line, hline⟩ :=
    mem_messagesOf_adapterFeedAll chunks (mkStreamParser defaultMaxBytes) _ h
  exact parseRecordLine_text_no_esc line sid content hline

/-- C9 witness: a CSI sequence split across the first two chunks and a
well-formed `text` record; the pipeline emits exactly the `Hello` text
event and its content carries no escape character. -/
theorem claim_C9_witness : escChar ∉ ("Hello" : String).data := by
  have h : pipelineMessages c9chunks = [OCMessage.text none "Hello"] := rfl
  exact claim_C9_text_no_escapes c9chunks none "Hello"
    (by rw [h]; exact List.mem_cons_self _ _)

/-! ## Session lifecycle lemmas -/

theorem handleMessage_wasInterrupted (st : OpenCodeAdapter) (m : OCMessage) :
    (st.handleMessage m).1.wasInterrupted = st.wasInterrupted := by
  rcases m with s | ⟨sid, c⟩ | ⟨t, i⟩ | ⟨t, s0, i, o⟩ | o | reason | e <;>
    simp only [OpenCodeAdapter.handleMessage] <;> split_ifs <;> rfl

theorem runRecords_cons (st : OpenCodeAdapter) (m : OCMessage) (ms : List OCMessage) :
    runRecords st (m :: ms) = runRecords (st.handleMessage m).1 ms := rfl

theorem runRecords_wasInterrupted (st : OpenCodeAdapter) (ms : List OCMessage) :
    (runRecords st ms).wasInterrupted = st.wasInterrupted := by
  induction ms generalizing st with
  | nil => rfl
  | cons m ms ih =>
    rw [runRecords_cons, ih, handleMessage_wasInterrupted]

/-! ## C1–C4: terminal event claims -/

/-- C1 (evaluation at the failing input): a `step_finish(reason=stop)`
record followed by an `Error` record makes the session emit two terminal
`complete` events — the `error` case of `handleMessage` sets the
completion flag without checking it first. -/
theorem claim_C1_double_terminal_eval :
    (runSession (mkAdapter (some "t1"))
        [SessionInput.record (.step_finish .stop),
         SessionInput.record (.error "boom")]).2
      = [AdapterEvent.complete .success none none,
         AdapterEvent.complete .error none (some "boom")] ∧
    countTerminal (runSession (mkAdapter (some "t1"))
        [SessionInput.record (.step_finish .stop),
         SessionInput.record (.error "boom")]).2 = 2 :=
  ⟨rfl, rfl⟩

/-- C2: after `interrupt()` on a session with a live process, any run of
further records that records no completion followed by a zero exit code
emits exactly one terminal `complete` with status `interrupted`, and no
`success` completion. -/
theorem claim_C2_interrupt_exit_zero (st : OpenCodeAdapter) (ms : List OCMessage)
    (hlive : st.hasPty = true ∨ st.hasChild = true)
    (hnc : (runRecords st.interruptTask ms).hasCompleted = false) :
    ((runRecords st.interruptTask ms).handleProcessExit (some 0)).2
      = [AdapterEvent.complete .interrupted
          (nonEmptyOpt (runRecords st.interruptTask ms).currentSessionId) none] ∧
    ∀ sid err, AdapterEvent.complete .success sid err ∉
      ((runRecords st.interruptTask ms).handleProcessExit (some 0)).2 := by
  have hint : st.interruptTask.wasInterrupted = true := by
    rcases hlive with h | h
    · simp [OpenCodeAdapter.interruptTask, h]
    · by_cases hp : st.hasPty
      · simp [OpenCodeAdapter.interruptTask, hp]
      · simp [OpenCodeAdapter.interruptTask, hp, h]
  have hw : (runRecords st.interruptTask ms).wasInterrupted = true := by
    rw [runRecords_wasInterrupted]
    exact hint
  have heq : ((runRecords st.interruptTask ms).handleProcessExit (some 0)).2
      = [AdapterEvent.complete .interrupted
          (nonEmptyOpt (runRecords st.interruptTask ms).currentSessionId) none] := by
    simp [OpenCodeAdapter.handleProcessExit, hw, hnc]
  refine ⟨heq, ?_⟩
  intro sid err hmem
  rw [heq] at hmem
  simp at hmem

/-- C2 witness: interrupt a session with a live PTY, no further records,
exit code 0. -/
theorem claim_C2_witness :
    ((runRecords ({ mkAdapter none with hasPty := true } :
        OpenCodeAdapter).interruptTask []).handleProcessExit (some 0)).2
      = [AdapterEvent.complete .interrupted none none] :=
  (claim_C2_interrupt_exit_zero { mkAdapter none with hasPty := true } []
    (Or.inl rfl) rfl).1

/-- C3: a zero exit code with no completion recorded and no interrupt
requested emits exactly one terminal `complete` with status `success`. -/
theorem claim_C3_clean_exit_success (st : OpenCodeAdapter)
    (h1 : st.hasCompleted = false) (h2 : st.wasInterrupted = false) :
    (st.handleProcessExit (some 0)).2
      = [AdapterEvent.complete .success (nonEmptyOpt st.currentSessionId) none] := by
  simp [OpenCodeAdapter.handleProcessExit, h1, h2]

/-- C3 witness: a fresh session, exit code 0. -/
theorem claim_C3_witness :
    ((mkAdapter none).handleProcessExit (some 0)).2
      = [AdapterEvent.complete .success none none] :=
  claim_C3_clean_exit_success (mkAdapter none) rfl rfl

/-- C4: a nonzero exit code with no completion recorded is routed to the
caller as exactly one `task_error` whose message contains the exit code,
and no `task_complete` is emitted for that exit. -/
theorem claim_C4_nonzero_exit_error (st : OpenCodeAdapter) (c : Int)
    (h1 : st.hasCompleted = false) (h2 : c ≠ 0) :
    routeEvents (st.handleProcessExit (some c)).2
      = [SidecarOut.task_error ("OpenCode CLI exited with code " ++ toString c)] ∧
    (∃ pre post : String, "OpenCode CLI exited with code " ++ toString c
      = pre ++ toString c ++ post) ∧
    ∀ status sid err, SidecarOut.task_complete status sid err ∉
      routeEvents (st.handleProcessExit (some c)).2 := by
  have heq : (st.handleProcessExit (some c)).2
      = [AdapterEvent.errorEv ("OpenCode CLI exited with code " ++ toString c)] := by
    simp [OpenCodeAdapter.handleProcessExit, h1, h2]
  refine ⟨by rw [heq]; rfl,
    ⟨"OpenCode CLI exited with code ", "", by simp⟩, ?_⟩
  intro status sid err hmem
  rw [heq] at hmem
  simp [routeEvents, routeEvent] at hmem

/-- C4 witness: a fresh session, exit code 1. -/
theorem claim_C4_witness :
    routeEvents ((mkAdapter none).handleProcessExit (some 1)).2
      = [SidecarOut.task_error "OpenCode CLI exited with code 1"] :=
  (claim_C4_nonzero_exit_error (mkAdapter none) 1 rfl (by decide)).1

/-! ## C5, C6, C10: Task Manager claims -/

theorem lookupTask_eraseTask (l : List (String × ManagedTask)) (taskId : String) :
    List.find? (fun kv => kv.1 == taskId) (eraseTask l taskId) = none := by
  apply List.find?_eq_none.mpr
  intro kv hkv
  have hmem := List.of_mem_filter hkv
  simpa using hmem

/-- C5: a `start_task` for a registered id fails with the duplicate-task
error, a `start_task` at the concurrency ceiling fails with the limit
error; both leave the registry untouched, and the default ceiling is
10. -/
theorem claim_C5_start_rejections :
    (∀ (m : TaskManager) (taskId : String) (oc : StartOutcome),
       m.hasActiveTask taskId = true →
       m.startTask taskId oc
         = (m, some ("Task " ++ taskId ++ " is already running"))) ∧
    (∀ (m : TaskManager) (taskId : String) (oc : StartOutcome),
       m.hasActiveTask taskId = false →
       m.activeTasks.length = m.maxConcurrentTasks →
       m.startTask taskId oc
         = (m, some ("Maximum concurrent tasks ("
             ++ toString m.maxConcurrentTasks ++ ") reached"))) ∧
    (TaskManager.new none).maxConcurrentTasks = 10 := by
  refine ⟨?_, ?_, rfl⟩
  · intro m taskId oc h
    simp [TaskManager.startTask, h]
  · intro m taskId oc h hl
    simp [TaskManager.startTask, h, hl]

/-- C5 witness: a full one-slot manager rejects a duplicate id and a fresh
id. -/
theorem claim_C5_witness :
    mgrOneTask.startTask "a" .ok
      = (mgrOneTask, some "Task a is already running") ∧
    mgrOneTask.startTask "b" .ok
      = (mgrOneTask, some "Maximum concurrent tasks (1) reached") :=
  ⟨claim_C5_start_rejections.1 mgrOneTask "a" .ok rfl,
   claim_C5_start_rejections.2.1 mgrOneTask "b" .ok rfl rfl⟩

theorem cancelTask_not_found {m : TaskManager} {taskId : String}
    (h : m.lookupTask taskId = none) : m.cancelTask taskId = (m, []) := by
  unfold TaskManager.cancelTask
  rw [h]

theorem cleanupTask_lookup_none (m : TaskManager) (taskId : String) :
    ((m.cleanupTask taskId).1).lookupTask taskId = none := by
  unfold TaskManager.cleanupTask
  split
  next t heq =>
    simp only []
    unfold TaskManager.lookupTask
    rw [lookupTask_eraseTask]
    rfl
  next heq =>
    simp only []
    exact heq

theorem cancelTask_lookup_none (m : TaskManager) (taskId : String) :
    ((m.cancelTask taskId).1).lookupTask taskId = none := by
  unfold TaskManager.cancelTask
  split
  next heq =>
    simp only []
    exact heq
  next t heq =>
    simp only []
    exact cleanupTask_lookup_none _ taskId

/-- C6: `cancelTask` is idempotent — a second cancel for the same id is an
exact no-op with no emitted events; cancelling an unregistered (e.g.
already completed and cleaned-up) id is a no-op with no events and no
error; and a late process-exit notification reaching a disposed adapter
emits nothing. -/
theorem claim_C6_cancel_idempotent :
    (∀ (m : TaskManager) (taskId : String),
       (m.cancelTask taskId).1.cancelTask taskId
         = ((m.cancelTask taskId).1, [])) ∧
    (∀ (m : TaskManager) (taskId : String),
       m.hasActiveTask taskId = false → m.cancelTask taskId = (m, [])) ∧
    (∀ (st : OpenCodeAdapter) (code : Option Int), st.isDisposed = false →
       (st.dispose.handleProcessExit code).2 = []) := by
  refine ⟨?_, ?_, ?_⟩
  · intro m taskId
    exact cancelTask_not_found (cancelTask_lookup_none m taskId)
  · intro m taskId h
    apply cancelTask_not_found
    unfold TaskManager.hasActiveTask at h
    rcases hl : m.lookupTask taskId with _ | t
    · rfl
    · rw [hl] at h
      simp at h
  · intro st code h
    unfold OpenCodeAdapter.dispose
    rw [if_neg (by simp [h])]
    simp [OpenCodeAdapter.handleProcessExit]

/-- C6 witness: second cancel of a registered task, cancel of an unknown
id, and a late exit on a freshly disposed adapter. -/
theorem claim_C6_witness :
    ((mgrOneTask.cancelTask "a").1.cancelTask "a"
       = ((mgrOneTask.cancelTask "a").1, [])) ∧
    (mgrOneTask.cancelTask "b" = (mgrOneTask, [])) ∧
    ((mkAdapter none).dispose.handleProcessExit (some 0)).2 = [] :=
  ⟨claim_C6_cancel_idempotent.1 mgrOneTask "a",
   claim_C6_cancel_idempotent.2.1 mgrOneTask "b" rfl,
   claim_C6_cancel_idempotent.2.2 (mkAdapter none) (some 0) rfl⟩

theorem find?_append_fresh {l : List (String × ManagedTask)} {taskId : String}
    (h : List.find? (fun kv => kv.1 == taskId) l = none) (t : ManagedTask) :
    List.find? (fun kv => kv.1 == taskId) (l ++ [(taskId, t)]) = some (taskId, t) := by
  rw [List.find?_append, h]
  simp [List.find?]

theorem eraseTask_append_fresh {l : List (String × ManagedTask)} {taskId : String}
    (h : List.find? (fun kv => kv.1 == taskId) l = none) (t : ManagedTask) :
    eraseTask (l ++ [(taskId, t)]) taskId = l := by
  unfold eraseTask
  rw [List.filter_append]
  have h1 := List.find?_eq_none.mp h
  have h2 : List.filter (fun kv => !(kv.1 == taskId)) l = l :=
    List.filter_eq_self.mpr (by intro a ha; simpa using h1 a ha)
  rw [h2]
  simp

/-- C10: when the adapter's start throws, `startTask` rethrows the error,
leaves the registry exactly as before (the freshly registered entry is
removed again), the same id can then be started without a duplicate-task
error, and the cleanup detaches the listeners and disposes the adapter. -/
theorem claim_C10_failed_start_cleanup (m : TaskManager) (taskId : String) (e : String)
    (h1 : m.hasActiveTask taskId = false)
    (h2 : m.activeTasks.length < m.maxConcurrentTasks) :
    (m.startTask taskId (.fail e)).2 = some e ∧
    (m.startTask taskId (.fail e)).1.activeTasks = m.activeTasks ∧
    ((m.startTask taskId (.fail e)).1.startTask taskId .ok).2 = none ∧
    (cleanupManaged ⟨mkAdapter (some taskId), true⟩).listenersAttached = false ∧
    (cleanupManaged ⟨mkAdapter (some taskId), true⟩).adapter.isDisposed = true := by
  have hfind : List.find? (fun kv => kv.1 == taskId) m.activeTasks = none := by
    unfold TaskManager.hasActiveTask TaskManager.lookupTask at h1
    rcases hf : List.find? (fun kv => kv.1 == taskId) m.activeTasks with _ | kv
    · exact hf
    · rw [hf] at h1
      simp at h1
  have hstart : m.startTask taskId (.fail e) = (m, some e) := by
    unfold TaskManager.startTask
    rw [if_neg (by simp [h1]), if_neg (by omega)]
    simp only []
    unfold TaskManager.cleanupTask TaskManager.lookupTask
    rw [find?_append_fresh hfind, eraseTask_append_fresh hfind]
    simp only [Option.map_some']
  refine ⟨by rw [hstart], by rw [hstart], ?_, rfl, rfl⟩
  rw [hstart]
  simp only []
  unfold TaskManager.startTask
  rw [if_neg (by simp [h1]), if_neg (by omega)]

/-- C10 witness: a spawn failure on a fresh manager leaves the registry
empty and the id restartable. -/
theorem claim_C10_witness :
    ((TaskManager.new none).startTask "a" (.fail "spawn failed")).2
      = some "spawn failed" ∧
    ((TaskManager.new none).startTask "a" (.fail "spawn failed")).1.activeTasks
      = [] ∧
    (((TaskManager.new none).startTask "a"
        (.fail "spawn failed")).1.startTask "a" .ok).2 = none :=
  have h := claim_C10_failed_start_cleanup (TaskManager.new none) "a"
    "spawn failed" rfl (by decide)
  ⟨h.1, h.2.1, h.2.2.1⟩

end CoworkZ
